import Mathlib

set_option maxHeartbeats 1000000
set_option autoImplicit false

/-!
Shallow embedding of `webFuzz/mutator.py`, the mutation engine of the
webFuzz web-application fuzzer.

Python dictionaries mapping parameter names to value lists are modelled as
association lists kept in insertion order, with Python dict semantics for
insertion (overwrite in place), deletion and `update`.  The process-wide
random source is modelled by explicit oracle arguments: every call that
the Python code makes to `random.choices`, `random.choice`,
`random.randint` or `random.randrange` consumes one explicitly passed
number (reduced modulo the relevant range), so theorems quantify over all
possible random draws.  Exceptions raised by the Python code (only
`random.choice([])` on an empty payload category, and `random.choices`
with zero total weight) are modelled as `Option.none`.

The `Node` class, its constructor and `calculate_param_size` live in
`webFuzz/node.py`, which is not part of the provided source; they are
modelled from the spec where noted.
-/

/-- HTTP request methods. Modelled from the spec: the data model uses the
enum values GET and POST (`webFuzz.types.HTTPMethod`). -/
inductive HTTPMethod where
  | GET
  | POST
deriving DecidableEq

/-- One parameter group: a Python dict from parameter name to the ordered
list of its string values, modelled as an association list in insertion
order. -/
abbrev Dict := List (String × List String)

/-- Python `k in d` for the parameter-dict model. -/
def containsKey (d : Dict) (k : String) : Bool :=
  d.any fun p => decide (p.1 = k)

/-- Python `d[k] = v`: overwrite in place when the key is present
(keeping its position), otherwise append at the end (insertion order). -/
def dictSet (d : Dict) (k : String) (v : List String) : Dict :=
  if containsKey d k then d.map (fun p => if p.1 = k then (k, v) else p)
  else d ++ [(k, v)]

/-- Python `del d[k]`. -/
def dictDel (d : Dict) (k : String) : Dict :=
  d.filter fun p => decide (p.1 ≠ k)

/-- Python `d1.update(d2)`: insert or overwrite every entry of `d2` into
`d1`, in the iteration order of `d2`. -/
def dictUpdate (d1 d2 : Dict) : Dict :=
  d2.foldl (fun acc p => dictSet acc p.1 p.2) d1

/-- The two parameter groups of a node: `node.params` is the Python dict
keyed by `HTTPMethod.GET` and `HTTPMethod.POST`. -/
structure ParamsMap where
  get : Dict
  post : Dict
deriving DecidableEq

/-- Python `params[param_type]`. -/
def ParamsMap.group (pm : ParamsMap) : HTTPMethod → Dict
  | HTTPMethod.GET => pm.get
  | HTTPMethod.POST => pm.post

/-- Python `params[param_type] = d`. -/
def ParamsMap.setGroup (pm : ParamsMap) : HTTPMethod → Dict → ParamsMap
  | HTTPMethod.GET, d => ⟨d, pm.post⟩
  | HTTPMethod.POST, d => ⟨pm.get, d⟩

/-- A request node. Modelled from the spec: url, method, the two
parameter groups, the cached parameter count `size`, and the provenance
back-reference `parent`. -/
inductive Node where
  | mk (url : String) (method : HTTPMethod) (params : ParamsMap)
       (size : Nat) (parent : Option Node)

def Node.url : Node → String
  | .mk u _ _ _ _ => u

def Node.method : Node → HTTPMethod
  | .mk _ m _ _ _ => m

def Node.params : Node → ParamsMap
  | .mk _ _ pm _ _ => pm

def Node.size : Node → Nat
  | .mk _ _ _ s _ => s

def Node.parent : Node → Option Node
  | .mk _ _ _ _ p => p

/-- Python `node.params = pm` (rebinding the attribute). -/
def Node.setParams : Node → ParamsMap → Node
  | .mk u m _ s p, pm => .mk u m pm s p

/-- Python `node.size = n`. -/
def Node.setSize : Node → Nat → Node
  | .mk u m pm _ p, s => .mk u m pm s p

/-- Modelled from the spec: the `Node` constructor call
`Node(url=..., method=..., parent_request=...)` used by `mutate` builds a
node with the given url, method and parent, empty parameter groups, and
size 0. -/
def Node.new (url : String) (method : HTTPMethod) (parent : Node) : Node :=
  .mk url method ⟨[], []⟩ 0 (some parent)

/-- Modelled from the spec: `Node.calculate_param_size` recomputes `size`
as the sum of the parameter counts of the two groups. -/
def Node.calculate_param_size (n : Node) : Node :=
  n.setSize (n.params.get.length + n.params.post.length)

/-- Coin-flip constants from the source. -/
def HEADS : Nat := 1

def TAILS : Nat := 2

/-- One weighted payload category (`Kind` in the source). -/
structure Kind where
  weight : Nat
  payloads : List String
deriving DecidableEq

/-- A collection of weighted payload categories (`Payloads`). -/
structure Payloads where
  payloads : List Kind
deriving DecidableEq

/-- Model of `Payloads.weights`: the list of category weights. -/
def Payloads.weights (p : Payloads) : List Nat :=
  p.payloads.map Kind.weight

/-- The cumulative-weight walk behind `random.choices(..., weights=...)`:
given a position `r` below the total weight, return the category whose
cumulative-weight interval contains `r`. -/
def pickWeighted : List Kind → Nat → Option Kind
  | [], _ => none
  | k :: rest, r => if r < k.weight then some k else pickWeighted rest (r - k.weight)

/-- Model of `random.choices(population, weights=..., k=1)[0]` over categories:
the random position is modelled as `r` reduced modulo the total weight;
a zero total weight (which makes `random.choices` raise) is `none`. -/
def weightedChoice (ks : List Kind) (r : Nat) : Option Kind :=
  let total := (ks.map Kind.weight).sum
  if total = 0 then none else pickWeighted ks (r % total)

/-- Model of `Payloads.payload`: draw a category by weighted choice, then one
payload uniformly from it.  `random.choice` on an empty category raises
`IndexError`, modelled as `none`; the exception is not caught anywhere,
so a `none` here is a fatal failure of the draw. -/
def Payloads.payload (p : Payloads) (rKind rItem : Nat) : Option String :=
  match weightedChoice p.payloads rKind with
  | none => none
  | some k =>
    match k.payloads with
    | [] => none
    | x :: xs => some ((x :: xs).getD (rItem % (x :: xs).length) x)

/-- The mutator's configuration state: the two payload collections loaded
at construction time. -/
structure Mutator where
  xss_payloads : Payloads
  syntax_tokens : Payloads
deriving DecidableEq

/-- Model of `math.ceil(n / 2)` for a natural `n`. -/
def ceilHalf (n : Nat) : Nat := (n + 1) / 2

namespace Mutator

/-- Model of `skip_param`: identity on the (name, values) pair. -/
def skip_param (param : String) (val : List String) : String × List String :=
  (param, val)

/-- Whether the search for the trailing-bracket pattern of `alter_type`
succeeds on `param`.  The pattern anchors at the end of the string and
matches a literal open bracket, a run of zero or more characters none of
which is an open bracket, then a final close bracket.  Such a match
exists exactly when the string ends with a close bracket and contains an
open bracket: the run from the last open bracket to the final character
contains no further open bracket by definition of "last". -/
def hasTrailingBracketGroup (cs : List Char) : Bool :=
  match cs.reverse with
  | [] => false
  | c :: rest => decide (c = ']') && rest.contains '['

/-- Remove the matched portion, which spans from the last open bracket to
the end of the string, keeping the prefix before that bracket. -/
def stripTrailingBracketGroup (cs : List Char) : List Char :=
  ((cs.reverse.dropWhile fun c => decide (c ≠ '[')).drop 1).reverse

/-- Model of `alter_type`: if the name ends in a bracket group, strip that group;
otherwise append an empty bracket pair.  Values pass through unchanged
and the function is total. -/
def alter_type (param : String) (val : List String) : String × List String :=
  if hasTrailingBracketGroup param.data
  then (String.mk (stripTrailingBracketGroup param.data), val)
  else (param ++ "[]", val)

end Mutator

/-- Model of `string.ascii_lowercase`: ASCII 97 to 122. -/
def asciiLowercase : List Char :=
  (List.range 26).map fun i => Char.ofNat (97 + i)

/-- Model of `string.punctuation`: the ASCII punctuation ranges 33 to 47, 58 to 64,
91 to 96 and 123 to 126. -/
def punctuationChars : List Char :=
  ((List.range 128).map Char.ofNat).filter fun c =>
    (decide (33 ≤ c.toNat) && decide (c.toNat ≤ 47)) ||
    (decide (58 ≤ c.toNat) && decide (c.toNat ≤ 64)) ||
    (decide (91 ≤ c.toNat) && decide (c.toNat ≤ 96)) ||
    (decide (123 ≤ c.toNat) && decide (c.toNat ≤ 126))

/-- Model of `string.digits`: ASCII 48 to 57. -/
def digitChars : List Char :=
  (List.range 10).map fun i => Char.ofNat (48 + i)

/-- The alphabet `random_string` draws from: lowercase letters,
punctuation and digits. -/
def mutationAlphabet : List Char :=
  asciiLowercase ++ punctuationChars ++ digitChars

/-- Randomness consumed by the text-insertion strategies: the
`random.randrange(1, 6)` length draw, one `random.choices` character draw
per position, and the `random.randint(HEADS, TAILS)` placement coin. -/
structure TextOracle where
  lenPick : Nat
  charPick : Nat → Nat
  coin : Nat

namespace Mutator

/-- Model of `random_string(length)`: join of `length` uniform draws from the
alphabet; the draw at position `i` is modelled by `charPick i` reduced
modulo the alphabet size. -/
def random_string (charPick : Nat → Nat) (length : Nat) : String :=
  String.mk ((List.range length).map fun i =>
    mutationAlphabet.getD (charPick i % mutationAlphabet.length) 'a')

/-- Model of `add_random_text`: draw a random string of length
`random.randrange(1, 6)` (uniform over 1..5, modelled as
`1 + lenPick % 5`), then prepend it to every value or append it to every
value according to one coin flip (`1 + coin % 2`, HEADS or TAILS). -/
def add_random_text (o : TextOracle) (param : String) (val : List String) :
    String × List String :=
  let payload : String := random_string o.charPick (1 + o.lenPick % 5)
  if 1 + o.coin % 2 = HEADS then (param, val.map fun x => payload ++ x)
  else (param, val.map fun x => x ++ payload)

/-- Model of `add_syntax_token`: draw one payload from the syntax-token collection
and prepend it to every value or append it to every value according to
one coin flip.  A failing draw (empty selected category) propagates as
`none`. -/
def add_syntax_token (m : Mutator) (rKind rItem coin : Nat)
    (param : String) (val : List String) : Option (String × List String) :=
  match m.syntax_tokens.payload rKind rItem with
  | none => none
  | some payload =>
    if 1 + coin % 2 = HEADS then some (param, val.map fun x => payload ++ x)
    else some (param, val.map fun x => x ++ payload)

/-- Model of `add_xss_payload`: same structure as `add_syntax_token`, drawing from
the XSS-payload collection. -/
def add_xss_payload (m : Mutator) (rKind rItem coin : Nat)
    (param : String) (val : List String) : Option (String × List String) :=
  match m.xss_payloads.payload rKind rItem with
  | none => none
  | some payload =>
    if 1 + coin % 2 = HEADS then some (param, val.map fun x => payload ++ x)
    else some (param, val.map fun x => x ++ payload)

/-- The scanning loop of `select_favourable_node`: `donor` is the running
`cross_node`; the strong branch (strictly more parameters than the donor
and a different url than the start node) returns immediately, modelling
`break`; the weak branch (at least `ceil(selfLen / 2)` parameters)
replaces the donor and continues. -/
def select_loop (selfLen : Nat) (start_node : Node) (cross_type : HTTPMethod) :
    List Node → Node → Node
  | [], donor => donor
  | node :: rest, donor =>
    if (node.params.group cross_type).length > (donor.params.group cross_type).length
        ∧ node.url ≠ start_node.url
    then node
    else if (node.params.group cross_type).length ≥ ceilHalf selfLen
    then select_loop selfLen start_node cross_type rest node
    else select_loop selfLen start_node cross_type rest donor

/-- Model of `select_favourable_node`: none on an empty corpus, otherwise scan the
corpus with the donor initialized to its first element. -/
def select_favourable_node (node_list : List Node) (start_node : Node)
    (cross_type : HTTPMethod) : Option Node :=
  match node_list with
  | [] => none
  | first :: _ =>
    some (select_loop ((start_node.params.group cross_type).length)
      start_node cross_type node_list first)

/-- Model of `merge_nodes`: `new_node.params[cross_type].update(cross_node.params[cross_type])`. -/
def merge_nodes (new_node : Node) (cross_node : Node) (cross_type : HTTPMethod) : Node :=
  new_node.setParams (new_node.params.setGroup cross_type
    (dictUpdate (new_node.params.group cross_type) (cross_node.params.group cross_type)))

/-- One iteration of the group loop of `cross_over`: skip the POST group
for a GET-method node, otherwise select a donor and merge it in. -/
def cross_step (node_list : List Node) (n : Node) (param_type : HTTPMethod) : Node :=
  if n.method = HTTPMethod.GET ∧ param_type = HTTPMethod.POST then n
  else
    match select_favourable_node node_list n param_type with
    | none => n
    | some cross_node => merge_nodes n cross_node param_type

/-- Model of `cross_over`: install a deep copy of the source's params as the
baseline, then run the group loop over GET and POST in that order. -/
def cross_over (from_node : Node) (node_list : List Node) (new_node : Node) : Node :=
  let n := new_node.setParams from_node.params
  cross_step node_list (cross_step node_list n HTTPMethod.GET) HTTPMethod.POST

/-- The body of the per-parameter loop of `per_param_mutate` for one
group: iterate the source entries in order; apply the drawn mutation
function (modelled by the oracle `strat`, indexed by the position in the
iteration); on a rename delete the old key first; then set the new key.
`acc` is the group dict of the new node, initialized to a deep copy of
the source group. -/
def process_entries (strat : Nat → String → List String → String × List String) :
    Nat → List (String × List String) → Dict → Dict
  | _, [], acc => acc
  | i, (key, value) :: rest, acc =>
    let pv := strat i key value
    let acc1 := if pv.1 ≠ key then dictDel acc key else acc
    process_entries strat (i + 1) rest (dictSet acc1 pv.1 pv.2)

/-- One group of `per_param_mutate`: the accumulator starts as the deep
copy of the source group. -/
def process_group (src : Dict) (strat : Nat → String → List String → String × List String) :
    Dict :=
  process_entries strat 0 src src

/-- Model of `per_param_mutate`: process both groups.  The weighted draw of one of
the five registered mutation functions for each parameter is modelled by
the oracle `strat`, which supplies the drawn function per group and
position. -/
def per_param_mutate (from_node new_node : Node)
    (strat : HTTPMethod → Nat → String → List String → String × List String) : Node :=
  new_node.setParams
    ⟨process_group from_node.params.get (strat HTTPMethod.GET),
     process_group from_node.params.post (strat HTTPMethod.POST)⟩

/-- Model of `all_param_mutate`: `functions = [cross_over]`; `random.choice` over
this singleton registry always yields `cross_over`. -/
def all_param_mutate (from_node new_node : Node) (node_list : List Node) : Node :=
  cross_over from_node node_list new_node

end Mutator

/-- Randomness consumed by `mutate`: the 80/20 coin of
`random.choices([per_param_mutate, all_param_mutate], weights=[80, 20])`
(modelled as a position modulo the total weight 100, per-parameter path
when below 80) and the per-parameter strategy draws. -/
structure MutOracle where
  coin : Nat
  strat : HTTPMethod → Nat → String → List String → String × List String

namespace Mutator

/-- Model of `mutate`: build the new node from the source's url, method and
parent; cross over directly when the source has no parameters, otherwise
take the per-parameter path (weight 80) or the whole-node path
(weight 20); finally recompute the size. -/
def mutate (from_node : Node) (node_list : List Node) (o : MutOracle) : Node :=
  let new_node := Node.new from_node.url from_node.method from_node
  let n :=
    if from_node.size = 0 then cross_over from_node node_list new_node
    else if o.coin % 100 < 80 then per_param_mutate from_node new_node o.strat
    else all_param_mutate from_node new_node node_list
  n.calculate_param_size

end Mutator

/-!
Spec-side definitions.  These follow the wording of the specification or
of the claim under scrutiny, to be compared against the source-derived
definitions above.
-/

/-- One scan step of `selectFavourableDonor` as the spec words it: the
accumulator is `Sum.inl donor` while the scan is running and `Sum.inr
donor` once the strong condition has stopped it; a stopped scan ignores
all further candidates. -/
def specStep (target : Node) (group : HTTPMethod) (selfCount : Nat)
    (acc : Node ⊕ Node) (candidate : Node) : Node ⊕ Node :=
  match acc with
  | Sum.inr d => Sum.inr d
  | Sum.inl donor =>
    if (candidate.params.group group).length > (donor.params.group group).length
        ∧ candidate.url ≠ target.url
    then Sum.inr candidate
    else if (candidate.params.group group).length ≥ ceilHalf selfCount
    then Sum.inl candidate
    else Sum.inl donor

/-- Definition of `selectFavourableDonor` as the spec words it: none on an empty
corpus; otherwise initialize the donor to the first corpus element and
fold the scan step over the corpus in order, returning the donor held
when the scan ends or was stopped. -/
def selectFavourableDonorSpec (corpus : List Node) (target : Node)
    (group : HTTPMethod) : Option Node :=
  match corpus with
  | [] => none
  | first :: _ =>
    some (match corpus.foldl
            (specStep target group ((target.params.group group).length))
            (Sum.inl first) with
          | Sum.inl d => d
          | Sum.inr d => d)

/-- The bracket test exactly as the claim words it: ONE OR MORE
non-open-bracket characters enclosed in brackets at the very end of the
name (so an empty trailing bracket pair does not match). -/
def hasTrailingBracketGroupOneOrMore (cs : List Char) : Bool :=
  match cs.reverse with
  | [] => false
  | c :: rest =>
    decide (c = ']') &&
    (match rest with
     | [] => false
     | d :: _ => decide (d ≠ '[')) &&
    rest.contains '['

/-- Definition of `alter_type` as the claim words it: strip only when the trailing
bracket group holds one or more non-open-bracket characters, otherwise
append an empty bracket pair. -/
def alterTypeClaimed (param : String) (val : List String) : String × List String :=
  if hasTrailingBracketGroupOneOrMore param.data
  then (String.mk (Mutator.stripTrailingBracketGroup param.data), val)
  else (param ++ "[]", val)

/-!
Heap model.  The frame claim about `mutate` (it never mutates the source
node or a corpus entry in place) is about Python's reference semantics,
so here the `params` attribute of each node is a reference into an
explicit store and every statement of the Python code that mutates a
params structure in place, or rebinds the attribute to a fresh object
(`copy.deepcopy`, the `Node` constructor), is modelled as a store write
or a fresh allocation at the end of the store.
-/

/-- The store of params structures; a reference is an index. -/
abbrev Store := List ParamsMap

/-- Dereference: out-of-range references read as an empty structure. -/
def readSt (st : Store) (r : Nat) : ParamsMap :=
  st.getD r ⟨[], []⟩

/-- In-place write through a reference. -/
def writeSt (st : Store) (r : Nat) (v : ParamsMap) : Store :=
  st.set r v

/-- A node whose `params` attribute is a reference into the store; the
provenance `parent` field is omitted as it plays no role in the frame
claim. -/
structure NodeH where
  url : String
  method : HTTPMethod
  paramsRef : Nat
  size : Nat
deriving DecidableEq

/-- Parameter count of a node's group, read through the store. -/
def groupLenH (st : Store) (n : NodeH) (ct : HTTPMethod) : Nat :=
  ((readSt st n.paramsRef).group ct).length

namespace Mutator

/-- Heap version of the scan loop of `select_favourable_node`: reads the
corpus nodes' params through the store, writes nothing. -/
def select_loop_h (st : Store) (selfLen : Nat) (start_node : NodeH)
    (cross_type : HTTPMethod) : List NodeH → NodeH → NodeH
  | [], donor => donor
  | node :: rest, donor =>
    if groupLenH st node cross_type > groupLenH st donor cross_type
        ∧ node.url ≠ start_node.url
    then node
    else if groupLenH st node cross_type ≥ ceilHalf selfLen
    then select_loop_h st selfLen start_node cross_type rest node
    else select_loop_h st selfLen start_node cross_type rest donor

/-- Heap version of `select_favourable_node`. -/
def select_favourable_node_h (st : Store) (node_list : List NodeH)
    (start_node : NodeH) (cross_type : HTTPMethod) : Option NodeH :=
  match node_list with
  | [] => none
  | first :: _ =>
    some (select_loop_h st (groupLenH st start_node cross_type)
      start_node cross_type node_list first)

/-- Heap version of one group iteration of `cross_over`: `merge_nodes`
mutates the target's params structure in place through its reference. -/
def cross_step_h (st : Store) (node_list : List NodeH) (n : NodeH)
    (param_type : HTTPMethod) : Store :=
  if n.method = HTTPMethod.GET ∧ param_type = HTTPMethod.POST then st
  else
    match select_favourable_node_h st node_list n param_type with
    | none => st
    | some cross_node =>
      writeSt st n.paramsRef ((readSt st n.paramsRef).setGroup param_type
        (dictUpdate ((readSt st n.paramsRef).group param_type)
          ((readSt st cross_node.paramsRef).group param_type)))

/-- Heap version of `cross_over`: `copy.deepcopy(from_node.params)`
allocates a fresh structure holding a copy of the source's params and
`new_node.params = ...` rebinds the target's reference to it; then the
group loop runs. -/
def cross_over_h (st : Store) (from_node : NodeH) (node_list : List NodeH)
    (new_node : NodeH) : Store × NodeH :=
  let st1 := st ++ [readSt st from_node.paramsRef]
  let n1 : NodeH := { new_node with paramsRef := st.length }
  let st2 := cross_step_h st1 node_list n1 HTTPMethod.GET
  (cross_step_h st2 node_list n1 HTTPMethod.POST, n1)

/-- Heap version of the per-parameter loop body: each deletion and each
insertion is a separate in-place write through the new node's params
reference. -/
def process_entries_h (newRef : Nat) (param_type : HTTPMethod)
    (strat : Nat → String → List String → String × List String) :
    Nat → List (String × List String) → Store → Store
  | _, [], st => st
  | i, (key, value) :: rest, st =>
    let pv := strat i key value
    let st1 :=
      if pv.1 ≠ key then
        writeSt st newRef ((readSt st newRef).setGroup param_type
          (dictDel ((readSt st newRef).group param_type) key))
      else st
    let st2 :=
      writeSt st1 newRef ((readSt st1 newRef).setGroup param_type
        (dictSet ((readSt st1 newRef).group param_type) pv.1 pv.2))
    process_entries_h newRef param_type strat (i + 1) rest st2

/-- Heap version of one group of `per_param_mutate`:
`new_node.params[param_type] = copy.deepcopy(from_node.params[param_type])`
writes a copied group through the new node's reference, then the entries
of the source group (read through the source's reference) are processed. -/
def per_param_group_h (st : Store) (fromRef newRef : Nat) (param_type : HTTPMethod)
    (strat : Nat → String → List String → String × List String) : Store :=
  let st1 := writeSt st newRef ((readSt st newRef).setGroup param_type
    ((readSt st fromRef).group param_type))
  process_entries_h newRef param_type strat 0
    ((readSt st1 fromRef).group param_type) st1

/-- Heap version of `per_param_mutate`: process the GET group then the
POST group. -/
def per_param_mutate_h (st : Store) (from_node new_node : NodeH)
    (strat : HTTPMethod → Nat → String → List String → String × List String) : Store :=
  let st1 := per_param_group_h st from_node.paramsRef new_node.paramsRef
    HTTPMethod.GET (strat HTTPMethod.GET)
  per_param_group_h st1 from_node.paramsRef new_node.paramsRef
    HTTPMethod.POST (strat HTTPMethod.POST)

/-- Heap version of `all_param_mutate`: the singleton whole-node registry
always yields `cross_over`. -/
def all_param_mutate_h (st : Store) (from_node new_node : NodeH)
    (node_list : List NodeH) : Store × NodeH :=
  cross_over_h st from_node node_list new_node

/-- Heap version of `mutate`: the `Node` constructor allocates a fresh
empty params structure for the new node; the branches run as in the pure
model; finally the size is recomputed from the new node's params. -/
def mutate_h (st : Store) (from_node : NodeH) (node_list : List NodeH)
    (o : MutOracle) : Store × NodeH :=
  let st1 := st ++ [(⟨[], []⟩ : ParamsMap)]
  let new_node : NodeH := ⟨from_node.url, from_node.method, st.length, 0⟩
  let res :=
    if from_node.size = 0 then cross_over_h st1 from_node node_list new_node
    else if o.coin % 100 < 80 then
      (per_param_mutate_h st1 from_node new_node o.strat, new_node)
    else all_param_mutate_h st1 from_node new_node node_list
  (res.1, { res.2 with
    size := ((readSt res.1 res.2.paramsRef).get).length
      + ((readSt res.1 res.2.paramsRef).post).length })

end Mutator

/-!
Concrete instances used by counterexamples and witnesses.
-/

/-- A source node carrying one POST parameter. -/
def c2src : Node := Node.mk "/s" HTTPMethod.POST ⟨[], [("a", ["x"])]⟩ 1 none

/-- A GET-method target node with no parameters. -/
def c2tgt : Node := Node.mk "/t" HTTPMethod.GET ⟨[], []⟩ 0 none

/-- A collection holding an empty category next to a non-empty one. -/
def c4coll : Payloads := ⟨[⟨30, []⟩, ⟨70, ["x"]⟩]⟩

/-!
Helper lemmas: node accessors, parameter-group accessors, dict
operations.
-/

@[simp] theorem Node.url_setParams (n : Node) (pm : ParamsMap) :
    (n.setParams pm).url = n.url := by cases n; rfl

@[simp] theorem Node.method_setParams (n : Node) (pm : ParamsMap) :
    (n.setParams pm).method = n.method := by cases n; rfl

@[simp] theorem Node.params_setParams (n : Node) (pm : ParamsMap) :
    (n.setParams pm).params = pm := by cases n; rfl

@[simp] theorem Node.parent_setParams (n : Node) (pm : ParamsMap) :
    (n.setParams pm).parent = n.parent := by cases n; rfl

@[simp] theorem Node.size_setParams (n : Node) (pm : ParamsMap) :
    (n.setParams pm).size = n.size := by cases n; rfl

@[simp] theorem Node.url_setSize (n : Node) (s : Nat) :
    (n.setSize s).url = n.url := by cases n; rfl

@[simp] theorem Node.method_setSize (n : Node) (s : Nat) :
    (n.setSize s).method = n.method := by cases n; rfl

@[simp] theorem Node.params_setSize (n : Node) (s : Nat) :
    (n.setSize s).params = n.params := by cases n; rfl

@[simp] theorem Node.parent_setSize (n : Node) (s : Nat) :
    (n.setSize s).parent = n.parent := by cases n; rfl

@[simp] theorem Node.size_setSize (n : Node) (s : Nat) :
    (n.setSize s).size = s := by cases n; rfl

@[simp] theorem ParamsMap.post_setGroup_GET (pm : ParamsMap) (d : Dict) :
    (pm.setGroup HTTPMethod.GET d).post = pm.post := rfl

@[simp] theorem ParamsMap.get_setGroup_GET (pm : ParamsMap) (d : Dict) :
    (pm.setGroup HTTPMethod.GET d).get = d := rfl

@[simp] theorem ParamsMap.post_setGroup_POST (pm : ParamsMap) (d : Dict) :
    (pm.setGroup HTTPMethod.POST d).post = d := rfl

@[simp] theorem ParamsMap.get_setGroup_POST (pm : ParamsMap) (d : Dict) :
    (pm.setGroup HTTPMethod.POST d).get = pm.get := rfl

theorem Mutator.merge_nodes_url (n c : Node) (ct : HTTPMethod) :
    (Mutator.merge_nodes n c ct).url = n.url := by
  simp [Mutator.merge_nodes]

theorem Mutator.merge_nodes_method (n c : Node) (ct : HTTPMethod) :
    (Mutator.merge_nodes n c ct).method = n.method := by
  simp [Mutator.merge_nodes]

theorem Mutator.merge_nodes_parent (n c : Node) (ct : HTTPMethod) :
    (Mutator.merge_nodes n c ct).parent = n.parent := by
  simp [Mutator.merge_nodes]

theorem Mutator.merge_nodes_post_GET (n c : Node) :
    (Mutator.merge_nodes n c HTTPMethod.GET).params.post = n.params.post := by
  simp [Mutator.merge_nodes]

theorem Mutator.cross_step_url (l : List Node) (n : Node) (pt : HTTPMethod) :
    (Mutator.cross_step l n pt).url = n.url := by
  unfold Mutator.cross_step
  split
  · rfl
  · split
    · rfl
    · exact Mutator.merge_nodes_url _ _ _

theorem Mutator.cross_step_method (l : List Node) (n : Node) (pt : HTTPMethod) :
    (Mutator.cross_step l n pt).method = n.method := by
  unfold Mutator.cross_step
  split
  · rfl
  · split
    · rfl
    · exact Mutator.merge_nodes_method _ _ _

theorem Mutator.cross_step_parent (l : List Node) (n : Node) (pt : HTTPMethod) :
    (Mutator.cross_step l n pt).parent = n.parent := by
  unfold Mutator.cross_step
  split
  · rfl
  · split
    · rfl
    · exact Mutator.merge_nodes_parent _ _ _

theorem Mutator.cross_over_url (f : Node) (l : List Node) (n : Node) :
    (Mutator.cross_over f l n).url = n.url := by
  unfold Mutator.cross_over
  rw [Mutator.cross_step_url, Mutator.cross_step_url, Node.url_setParams]

theorem Mutator.cross_over_method (f : Node) (l : List Node) (n : Node) :
    (Mutator.cross_over f l n).method = n.method := by
  unfold Mutator.cross_over
  rw [Mutator.cross_step_method, Mutator.cross_step_method, Node.method_setParams]

theorem Mutator.cross_over_parent (f : Node) (l : List Node) (n : Node) :
    (Mutator.cross_over f l n).parent = n.parent := by
  unfold Mutator.cross_over
  rw [Mutator.cross_step_parent, Mutator.cross_step_parent, Node.parent_setParams]

/-- A node's size after `calculate_param_size` is the parameter count of
its (unchanged) final params. -/
theorem Node.calculate_param_size_spec (n : Node) :
    (n.calculate_param_size).size
      = (n.calculate_param_size).params.get.length
        + (n.calculate_param_size).params.post.length := by
  cases n; rfl

/-!
C8: cross-over against an empty corpus.
-/

/-- C8: for every source node and target node, `cross_over` with an empty
corpus leaves the target's params equal to the (copied) source params for
every group: donor selection returns none for both groups, so only the
baseline deep copy is installed. -/
theorem c8_cross_over_empty_corpus (from_node new_node : Node) :
    (Mutator.cross_over from_node [] new_node).params = from_node.params := by
  unfold Mutator.cross_over Mutator.cross_step
  simp [Mutator.select_favourable_node]

/-!
C2: cross-over into a GET-method target and POST parameters.
-/

/-- C2 counterexample: the baseline deep copy installs the source node's
POST parameters into the GET-method target, so after `cross_over` the
target's POST group is not empty when the source carried POST
parameters; the claim that the POST group then contains no entries fails
at this input. -/
theorem c2_counterexample :
    c2tgt.method = HTTPMethod.GET
    ∧ (Mutator.cross_over c2src [] c2tgt).params.post = [("a", ["x"])]
    ∧ [(("a" : String), (["x"] : List String))] ≠ ([] : Dict) := by
  refine ⟨rfl, by decide, by decide⟩

/-- C2 (amended): for a GET-method target, `cross_over` never merges any
donor entry into the POST group — the target's POST group after
`cross_over` is exactly the deep copy of the source node's POST group. -/
theorem c2_cross_over_get_target_post_from_source (from_node : Node)
    (node_list : List Node) (new_node : Node)
    (h : new_node.method = HTTPMethod.GET) :
    (Mutator.cross_over from_node node_list new_node).params.post
      = from_node.params.post := by
  unfold Mutator.cross_over
  have hm : (Mutator.cross_step node_list (new_node.setParams from_node.params)
      HTTPMethod.GET).method = HTTPMethod.GET := by
    rw [Mutator.cross_step_method, Node.method_setParams, h]
  rw [show Mutator.cross_step node_list
        (Mutator.cross_step node_list (new_node.setParams from_node.params) HTTPMethod.GET)
        HTTPMethod.POST
      = Mutator.cross_step node_list (new_node.setParams from_node.params) HTTPMethod.GET by
    unfold Mutator.cross_step
    rw [if_pos ⟨hm, rfl⟩]]
  unfold Mutator.cross_step
  split
  · simp
  · split
    · simp
    · rw [Mutator.merge_nodes_post_GET]
      simp

/-- C2 witness: the amended theorem applied to the concrete GET-method
target node. -/
theorem c2_witness :
    c2tgt.method = HTTPMethod.GET
    ∧ (Mutator.cross_over c2src [] c2tgt).params.post = c2src.params.post :=
  ⟨rfl, c2_cross_over_get_target_post_from_source c2src [] c2tgt rfl⟩

/-!
Dict lemmas for the per-parameter counting argument.
-/

theorem containsKey_iff (d : Dict) (k : String) :
    containsKey d k = true ↔ ∃ p ∈ d, p.1 = k := by
  simp [containsKey, List.any_eq_true]

theorem containsKey_of_mem (d : Dict) {p : String × List String} (hp : p ∈ d) :
    containsKey d p.1 = true :=
  (containsKey_iff d p.1).mpr ⟨p, hp, rfl⟩

theorem length_dictSet_le (d : Dict) (k : String) (v : List String) :
    (dictSet d k v).length ≤ d.length + 1 := by
  unfold dictSet
  split
  · simp
  · simp

theorem length_dictSet_of_contains (d : Dict) (k : String) (v : List String)
    (h : containsKey d k = true) : (dictSet d k v).length = d.length := by
  unfold dictSet
  rw [if_pos h]
  simp

theorem length_dictDel_of_contains (d : Dict) (k : String)
    (h : containsKey d k = true) : (dictDel d k).length + 1 ≤ d.length := by
  obtain ⟨p, hp, hpk⟩ := (containsKey_iff d k).mp h
  have : (dictDel d k).length < d.length := by
    unfold dictDel
    exact List.length_filter_lt_length_iff_exists.mpr ⟨p, hp, by simp [hpk]⟩
  omega

theorem containsKey_dictSet_of (d : Dict) (k a : String) (v : List String)
    (h : containsKey d a = true) : containsKey (dictSet d k v) a = true := by
  obtain ⟨p, hp, hpa⟩ := (containsKey_iff d a).mp h
  unfold dictSet
  split
  · refine (containsKey_iff _ a).mpr ⟨(fun q => if q.1 = k then (k, v) else q) p,
      List.mem_map_of_mem _ hp, ?_⟩
    by_cases hpk : p.1 = k
    · simp [hpk, ← hpa, hpk]
    · have han : a ≠ k := fun hak => hpk (hpa.trans hak)
      simp [hpk, hpa, han]
  · exact (containsKey_iff _ a).mpr ⟨p, List.mem_append_left _ hp, hpa⟩

theorem containsKey_dictDel_of (d : Dict) (k a : String)
    (h : containsKey d a = true) (hne : a ≠ k) :
    containsKey (dictDel d k) a = true := by
  obtain ⟨p, hp, hpa⟩ := (containsKey_iff d a).mp h
  refine (containsKey_iff _ a).mpr ⟨p, ?_, hpa⟩
  unfold dictDel
  refine List.mem_filter.mpr ⟨hp, by simp [hpa, hne]⟩

/-- The central counting invariant of the per-parameter loop: as long as
every still-unprocessed source key is present in the accumulator and the
source keys are distinct, processing can only shrink or keep the
accumulator's size. A processed entry either overwrites its key in place
or deletes the old key before inserting the (possibly colliding) new
one. -/
theorem process_entries_length_le
    (strat : Nat → String → List String → String × List String) :
    ∀ (entries : List (String × List String)) (i : Nat) (acc : Dict),
      (entries.map Prod.fst).Nodup →
      (∀ e ∈ entries, containsKey acc e.1 = true) →
      (Mutator.process_entries strat i entries acc).length ≤ acc.length := by
  intro entries
  induction entries with
  | nil => intro i acc _ _; simp [Mutator.process_entries]
  | cons e rest ih =>
    intro i acc hnd hmem
    obtain ⟨key, value⟩ := e
    have hk : containsKey acc key = true := hmem (key, value) (List.mem_cons_self _ _)
    have hnd' : (rest.map Prod.fst).Nodup := by
      simpa using hnd.of_cons
    have hkey_not : key ∉ rest.map Prod.fst := by
      have := hnd
      simp only [List.map_cons, List.nodup_cons] at this
      exact this.1
    rw [Mutator.process_entries]
    by_cases hre : (strat i key value).1 ≠ key
    · rw [if_pos hre]
      have h1 : (dictDel acc key).length + 1 ≤ acc.length :=
        length_dictDel_of_contains acc key hk
      have h2 : (dictSet (dictDel acc key) (strat i key value).1
          (strat i key value).2).length ≤ (dictDel acc key).length + 1 :=
        length_dictSet_le _ _ _
      have h3 := ih (i + 1) (dictSet (dictDel acc key) (strat i key value).1
          (strat i key value).2) hnd' ?_
      · omega
      · intro e' he'
        have hin : containsKey acc e'.1 = true := hmem e' (List.mem_cons_of_mem _ he')
        have hne : e'.1 ≠ key := by
          intro hcontra
          exact hkey_not (hcontra ▸ List.mem_map_of_mem Prod.fst he')
        exact containsKey_dictSet_of _ _ _ _ (containsKey_dictDel_of _ _ _ hin hne)
    · rw [if_neg hre]
      push_neg at hre
      have h2 : (dictSet acc (strat i key value).1 (strat i key value).2).length
          = acc.length := by
        rw [hre]
        exact length_dictSet_of_contains acc key _ hk
      have h3 := ih (i + 1) (dictSet acc (strat i key value).1
          (strat i key value).2) hnd' ?_
      · omega
      · intro e' he'
        exact containsKey_dictSet_of _ _ _ _ (hmem e' (List.mem_cons_of_mem _ he'))

/-- C10: in the per-parameter mutation path, for each parameter group the
new node's parameter count after processing never exceeds the source
node's count in that group (assuming the source groups are well-formed
dicts, i.e. have distinct keys): each processed parameter either
overwrites its own entry, or deletes the old key and inserts the renamed
one, and a rename collision silently merges two entries into one. -/
theorem c10_per_param_count_le (from_node new_node : Node)
    (strat : HTTPMethod → Nat → String → List String → String × List String)
    (hget : (from_node.params.get.map Prod.fst).Nodup)
    (hpost : (from_node.params.post.map Prod.fst).Nodup) :
    ((Mutator.per_param_mutate from_node new_node strat).params.get).length
        ≤ from_node.params.get.length
    ∧ ((Mutator.per_param_mutate from_node new_node strat).params.post).length
        ≤ from_node.params.post.length := by
  constructor
  · simp only [Mutator.per_param_mutate, Node.params_setParams]
    exact process_entries_length_le _ _ 0 _ hget
      (fun e he => containsKey_of_mem _ he)
  · simp only [Mutator.per_param_mutate, Node.params_setParams]
    exact process_entries_length_le _ _ 0 _ hpost
      (fun e he => containsKey_of_mem _ he)

/-- C10 witness: the bound applied to a concrete two-parameter node with
a strategy oracle renaming both parameters to the same key, where the
count actually shrinks. -/
theorem c10_witness :
    ((([("a", ["1"]), ("b", ["2"])] : Dict).map Prod.fst).Nodup
      ∧ ((([] : Dict)).map Prod.fst).Nodup)
    ∧ ((Mutator.per_param_mutate
          (Node.mk "/a" HTTPMethod.GET ⟨[("a", ["1"]), ("b", ["2"])], []⟩ 2 none)
          (Node.mk "/a" HTTPMethod.GET ⟨[], []⟩ 0 none)
          (fun _ _ _ v => ("c", v))).params.get).length
        ≤ (([("a", ["1"]), ("b", ["2"])] : Dict)).length := by
  refine ⟨⟨by decide, by decide⟩, ?_⟩
  exact (c10_per_param_count_le
    (Node.mk "/a" HTTPMethod.GET ⟨[("a", ["1"]), ("b", ["2"])], []⟩ 2 none)
    (Node.mk "/a" HTTPMethod.GET ⟨[], []⟩ 0 none)
    (fun _ _ _ v => ("c", v)) (by decide) (by decide)).1

/-!
C1: donor selection.
-/

/-- A stopped scan ignores all further candidates. -/
theorem foldl_specStep_inr (start_node : Node) (cross_type : HTTPMethod)
    (selfLen : Nat) (l : List Node) (d : Node) :
    l.foldl (specStep start_node cross_type selfLen) (Sum.inr d) = Sum.inr d := by
  induction l with
  | nil => rfl
  | cons n rest ih => rw [List.foldl_cons]; exact ih

/-- The source's scan loop with early return agrees with the spec's
fold-with-stop formulation, for every initial donor. -/
theorem select_loop_eq_spec_foldl (start_node : Node) (cross_type : HTTPMethod)
    (selfLen : Nat) :
    ∀ (l : List Node) (donor : Node),
      (match l.foldl (specStep start_node cross_type selfLen) (Sum.inl donor) with
       | Sum.inl d => d
       | Sum.inr d => d)
      = Mutator.select_loop selfLen start_node cross_type l donor := by
  intro l
  induction l with
  | nil => intro donor; rfl
  | cons n rest ih =>
    intro donor
    rw [List.foldl_cons, Mutator.select_loop]
    by_cases h1 : (n.params.group cross_type).length
        > (donor.params.group cross_type).length ∧ n.url ≠ start_node.url
    · rw [if_pos h1,
        show specStep start_node cross_type selfLen (Sum.inl donor) n = Sum.inr n by
          simp only [specStep]; rw [if_pos h1],
        foldl_specStep_inr]
    · rw [if_neg h1]
      by_cases h2 : (n.params.group cross_type).length ≥ ceilHalf selfLen
      · rw [if_pos h2,
          show specStep start_node cross_type selfLen (Sum.inl donor) n = Sum.inl n by
            simp only [specStep]; rw [if_neg h1, if_pos h2]]
        exact ih n
      · rw [if_neg h2,
          show specStep start_node cross_type selfLen (Sum.inl donor) n = Sum.inl donor by
            simp only [specStep]; rw [if_neg h1, if_neg h2]]
        exact ih donor

theorem getLast_getD_cons {α : Type} (a d : α) (l : List α) :
    ((a :: l).getLast?).getD d = (l.getLast?).getD a := by
  cases l with
  | nil => rfl
  | cons b t =>
    rw [List.getLast?_cons_cons]
    cases h : (b :: t).getLast? with
    | none => exact absurd (List.getLast?_eq_none_iff.mp h) (by simp)
    | some x => rfl

/-- When every corpus url equals the target's url the strong branch can
never fire, and the scan keeps the last weak-qualifying candidate (or
the initial donor when none qualifies). -/
theorem select_loop_all_same_url (start_node : Node) (cross_type : HTTPMethod)
    (selfLen : Nat) :
    ∀ (l : List Node) (donor : Node), (∀ n ∈ l, n.url = start_node.url) →
      Mutator.select_loop selfLen start_node cross_type l donor
        = ((l.filter fun n =>
            decide ((n.params.group cross_type).length ≥ ceilHalf selfLen)).getLast?).getD
            donor := by
  intro l
  induction l with
  | nil => intro donor _; rfl
  | cons n rest ih =>
    intro donor hurl
    rw [Mutator.select_loop]
    have hne : ¬((n.params.group cross_type).length
        > (donor.params.group cross_type).length ∧ n.url ≠ start_node.url) := by
      rintro ⟨_, hu⟩
      exact hu (hurl n (List.mem_cons_self _ _))
    rw [if_neg hne]
    by_cases h2 : (n.params.group cross_type).length ≥ ceilHalf selfLen
    · rw [if_pos h2, List.filter_cons_of_pos (by simpa using h2),
        ih n (fun m hm => hurl m (List.mem_cons_of_mem _ hm)), getLast_getD_cons]
    · rw [if_neg h2, List.filter_cons_of_neg (by simpa using h2)]
      exact ih donor (fun m hm => hurl m (List.mem_cons_of_mem _ hm))

/-- C1: `select_favourable_node` returns none on an empty corpus; it
agrees with the spec's scan (donor initialized to the first element;
strong branch — strictly more parameters than the current donor and a
different url — stops the scan immediately; weak branch — count at least
`ceil(selfCount / 2)` — replaces the donor and continues); and when the
strong branch never fires (e.g. all corpus urls equal the target's) the
result is the last weak-qualifying candidate, or the first element when
none qualifies. -/
theorem c1_select_favourable_donor (node_list : List Node) (start_node : Node)
    (cross_type : HTTPMethod) :
    (node_list = [] →
      Mutator.select_favourable_node node_list start_node cross_type = none)
    ∧ Mutator.select_favourable_node node_list start_node cross_type
        = selectFavourableDonorSpec node_list start_node cross_type
    ∧ (∀ first rest, node_list = first :: rest →
        (∀ n ∈ node_list, n.url = start_node.url) →
        Mutator.select_favourable_node node_list start_node cross_type
          = some (((node_list.filter fun n =>
              decide ((n.params.group cross_type).length
                ≥ ceilHalf ((start_node.params.group cross_type).length))).getLast?).getD
              first)) := by
  refine ⟨?_, ?_, ?_⟩
  · intro h; subst h; rfl
  · cases node_list with
    | nil => rfl
    | cons first rest =>
      simp only [Mutator.select_favourable_node, selectFavourableDonorSpec]
      exact congrArg some (select_loop_eq_spec_foldl start_node cross_type _ _ first).symm
  · intro first rest hl hurl
    subst hl
    simp only [Mutator.select_favourable_node]
    exact congrArg some
      (select_loop_all_same_url start_node cross_type _ (first :: rest) first hurl)

/-- C1 witness: the characterization applied to a concrete
one-element corpus sharing the target's url, whose element weakly
qualifies and is returned. -/
theorem c1_witness :
    (∀ n ∈ [Node.mk "/a" HTTPMethod.GET ⟨[("x", ["1"])], []⟩ 1 none],
        n.url = (Node.mk "/a" HTTPMethod.GET ⟨[("q", ["0"]), ("r", ["0"])], []⟩ 2 none).url)
    ∧ Mutator.select_favourable_node
        [Node.mk "/a" HTTPMethod.GET ⟨[("x", ["1"])], []⟩ 1 none]
        (Node.mk "/a" HTTPMethod.GET ⟨[("q", ["0"]), ("r", ["0"])], []⟩ 2 none)
        HTTPMethod.GET
      = some (Node.mk "/a" HTTPMethod.GET ⟨[("x", ["1"])], []⟩ 1 none) := by
  refine ⟨?_, ?_⟩
  · intro n hn
    rw [List.mem_singleton.mp hn]
    rfl
  · exact (c1_select_favourable_donor
      [Node.mk "/a" HTTPMethod.GET ⟨[("x", ["1"])], []⟩ 1 none]
      (Node.mk "/a" HTTPMethod.GET ⟨[("q", ["0"]), ("r", ["0"])], []⟩ 2 none)
      HTTPMethod.GET).2.2
      (Node.mk "/a" HTTPMethod.GET ⟨[("x", ["1"])], []⟩ 1 none) [] rfl
      (by intro n hn; rw [List.mem_singleton.mp hn]; rfl)

/-!
C3 and C7: the alter-type strategy.
-/

theorem contains_char_iff (l : List Char) (c : Char) :
    l.contains c = true ↔ c ∈ l := by
  simp [List.contains, List.elem_iff]

/-- Split a character list at the first open bracket. -/
theorem exists_split_at_first (l : List Char) (h : '[' ∈ l) :
    ∃ a b : List Char, l = a ++ '[' :: b ∧ '[' ∉ a := by
  induction l with
  | nil => cases h
  | cons x t ih =>
    by_cases hx : x = '['
    · exact ⟨[], t, by rw [hx]; rfl, by simp⟩
    · have ht : '[' ∈ t := by
        rcases List.mem_cons.mp h with h1 | h2
        · exact absurd h1.symm hx
        · exact h2
      obtain ⟨a, b, hab, hna⟩ := ih ht
      refine ⟨x :: a, b, by rw [hab]; rfl, ?_⟩
      intro hmem
      rcases List.mem_cons.mp hmem with h1 | h2
      · exact hx h1.symm
      · exact hna h2

theorem dropWhile_append_of_forall (a b : List Char)
    (ha : ∀ x ∈ a, x ≠ '[') :
    (a ++ '[' :: b).dropWhile (fun c => decide (c ≠ '[')) = '[' :: b := by
  induction a with
  | nil => simp [List.dropWhile_cons]
  | cons x t ih =>
    rw [List.cons_append, List.dropWhile_cons,
      if_pos (by simp [ha x (List.mem_cons_self _ _)])]
    exact ih (fun y hy => ha y (List.mem_cons_of_mem _ hy))

/-- The bracket test of `alter_type` succeeds exactly when the name
decomposes as a prefix, an open bracket, a bracket-free run, and a final
close bracket. -/
theorem hasTrailingBracketGroup_iff (cs : List Char) :
    Mutator.hasTrailingBracketGroup cs = true
      ↔ ∃ pre mid : List Char, cs = pre ++ '[' :: (mid ++ [']']) ∧ '[' ∉ mid := by
  constructor
  · intro h
    unfold Mutator.hasTrailingBracketGroup at h
    cases hr : cs.reverse with
    | nil => rw [hr] at h; cases h
    | cons c rest =>
      rw [hr] at h
      have hc : c = ']' := of_decide_eq_true ((Bool.and_eq_true _ _).mp h).1
      have hmem : '[' ∈ rest :=
        (contains_char_iff rest _).mp ((Bool.and_eq_true _ _).mp h).2
      obtain ⟨a, b, hab, hna⟩ := exists_split_at_first rest hmem
      refine ⟨b.reverse, a.reverse, ?_, by simpa using hna⟩
      have hcs : cs = (c :: rest).reverse := by rw [← hr, List.reverse_reverse]
      rw [hcs, hc, hab]
      simp
  · rintro ⟨pre, mid, hcs, hnm⟩
    unfold Mutator.hasTrailingBracketGroup
    rw [hcs,
      show (pre ++ '[' :: (mid ++ [']'])).reverse
        = ']' :: (mid.reverse ++ '[' :: pre.reverse) by simp]
    show (decide ((']' : Char) = ']') && (mid.reverse ++ '[' :: pre.reverse).contains '[')
      = true
    refine (Bool.and_eq_true _ _).mpr ⟨by decide, (contains_char_iff _ _).mpr ?_⟩
    exact List.mem_append_right _ (List.mem_cons_self _ _)

/-- Stripping removes exactly the trailing bracket group. -/
theorem stripTrailingBracketGroup_eq (pre mid : List Char) (hnm : '[' ∉ mid) :
    Mutator.stripTrailingBracketGroup (pre ++ '[' :: (mid ++ [']'])) = pre := by
  unfold Mutator.stripTrailingBracketGroup
  rw [show (pre ++ '[' :: (mid ++ [']'])).reverse
      = (']' :: mid.reverse) ++ '[' :: pre.reverse by simp]
  rw [dropWhile_append_of_forall]
  · simp
  · intro x hx
    rcases List.mem_cons.mp hx with h1 | h2
    · rw [h1]; decide
    · intro hcontra
      exact hnm (by rw [← hcontra]; exact List.mem_reverse.mp h2)

/-- C3 counterexample: the claim's pattern requires one or more enclosed
characters, so on the name `foo[]` it predicts the append branch
(yielding `foo[][]`), but the source's pattern admits the empty bracket
group and strips it, yielding `foo`. -/
theorem c3_counterexample :
    Mutator.alter_type "foo[]" ["1"] = ("foo", ["1"])
    ∧ alterTypeClaimed "foo[]" ["1"] = ("foo[][]", ["1"])
    ∧ ("foo" : String) ≠ "foo[][]" := by
  refine ⟨by decide, by decide, by decide⟩

/-- C3 (amended): if the name ends with a bracket group — zero or more
non-open-bracket characters enclosed in brackets at the very end —
`alter_type` strips exactly that trailing group and returns the
shortened name with values unchanged; for any other name it appends the
literal `[]`, values unchanged; the check is total and never fails. -/
theorem c3_alter_type_amended (param : String) (val : List String) :
    (∀ pre mid : List Char, param.data = pre ++ '[' :: (mid ++ [']']) → '[' ∉ mid →
        Mutator.alter_type param val = (String.mk pre, val))
    ∧ ((¬ ∃ pre mid : List Char,
          param.data = pre ++ '[' :: (mid ++ [']']) ∧ '[' ∉ mid) →
        Mutator.alter_type param val = (param ++ "[]", val)) := by
  constructor
  · intro pre mid hdecomp hnm
    unfold Mutator.alter_type
    rw [if_pos ((hasTrailingBracketGroup_iff param.data).mpr ⟨pre, mid, hdecomp, hnm⟩),
      hdecomp, stripTrailingBracketGroup_eq pre mid hnm]
  · intro hno
    unfold Mutator.alter_type
    rw [if_neg]
    intro hcontra
    exact hno ((hasTrailingBracketGroup_iff param.data).mp hcontra)

/-- C3 witness: the amended theorem applied to the name `foo[2]`. -/
theorem c3_witness :
    ("foo[2]" : String).data
        = ['f', 'o', 'o'] ++ '[' :: (['2'] ++ [']'])
    ∧ '[' ∉ (['2'] : List Char)
    ∧ Mutator.alter_type "foo[2]" ["v"] = (String.mk ['f', 'o', 'o'], ["v"]) :=
  ⟨by decide, by decide,
    (c3_alter_type_amended "foo[2]" ["v"]).1 ['f', 'o', 'o'] ['2']
      (by decide) (by decide)⟩

/-- C7: applying alter-type twice to a pair whose name is bracket-free
returns the original pair: the first application appends `[]` and the
second strips that trailing empty bracket group back off. -/
theorem c7_alter_type_double (param : String) (val : List String)
    (h1 : param.data.contains '[' = false)
    (h2 : param.data.contains ']' = false) :
    Mutator.alter_type (Mutator.alter_type param val).1
        (Mutator.alter_type param val).2
      = (param, val) := by
  have hm1 : Mutator.hasTrailingBracketGroup param.data = false := by
    rw [Bool.eq_false_iff]
    intro hcontra
    obtain ⟨pre, mid, hdecomp, _⟩ := (hasTrailingBracketGroup_iff _).mp hcontra
    have hin : '[' ∈ param.data := by rw [hdecomp]; simp
    have hc := (contains_char_iff param.data '[').mpr hin
    rw [h1] at hc
    cases hc
  rw [show Mutator.alter_type param val = (param ++ "[]", val) by
    unfold Mutator.alter_type
    rw [if_neg (by simp [hm1])]]
  unfold Mutator.alter_type
  rw [if_pos ((hasTrailingBracketGroup_iff _).mpr
    ⟨param.data, [],
      by rw [String.data_append]; rfl, by simp⟩)]
  rw [show Mutator.stripTrailingBracketGroup ((param ++ "[]").data) = param.data by
    rw [show (param ++ "[]").data = param.data ++ '[' :: ([] ++ [']']) by
      rw [String.data_append]; rfl]
    exact stripTrailingBracketGroup_eq param.data [] (by simp)]

/-- C7 witness: the double application at the bracket-free name `p`. -/
theorem c7_witness :
    ("p" : String).data.contains '[' = false
    ∧ ("p" : String).data.contains ']' = false
    ∧ Mutator.alter_type (Mutator.alter_type "p" ["v"]).1
        (Mutator.alter_type "p" ["v"]).2 = ("p", ["v"]) :=
  ⟨by decide, by decide, c7_alter_type_double "p" ["v"] (by decide) (by decide)⟩

/-!
C4: the payload draw and empty categories.
-/

/-- C4 counterexample: with an empty category present in the collection,
a draw whose weighted choice lands on the non-empty category silently
returns a payload, so the draw does not fail merely because some
category is empty. -/
theorem c4_counterexample :
    (c4coll.payloads.any fun k => k.payloads.isEmpty) = true
    ∧ c4coll.payload 50 0 = some "x" := by
  refine ⟨by decide, by decide⟩

/-- C4 (amended): the payload draw fails (fatally: the exception is
raised out of the sampler and not caught or retried) exactly when the
category selected by the weighted draw is empty; an empty category
elsewhere in the collection does not make the draw fail. -/
theorem c4_payload_amended (p : Payloads) (rKind rItem : Nat) (k : Kind)
    (h : weightedChoice p.payloads rKind = some k) :
    (p.payload rKind rItem = none ↔ k.payloads = []) := by
  unfold Payloads.payload
  rw [h]
  cases hk : k.payloads with
  | nil => simp [hk]
  | cons x xs => simp [hk]

/-- C4 witness: the amended theorem applied to the concrete collection,
with the weighted draw selecting the empty category. -/
theorem c4_witness :
    weightedChoice c4coll.payloads 5 = some ⟨30, []⟩
    ∧ (c4coll.payload 5 0 = none ↔ (⟨30, []⟩ : Kind).payloads = []) :=
  ⟨by decide, c4_payload_amended c4coll 5 0 ⟨30, []⟩ (by decide)⟩

/-!
C5: the mutate orchestration.
-/

@[simp] theorem Node.url_new (u : String) (m : HTTPMethod) (p : Node) :
    (Node.new u m p).url = u := rfl

@[simp] theorem Node.method_new (u : String) (m : HTTPMethod) (p : Node) :
    (Node.new u m p).method = m := rfl

@[simp] theorem Node.parent_new (u : String) (m : HTTPMethod) (p : Node) :
    (Node.new u m p).parent = some p := rfl

@[simp] theorem Node.url_calculate (n : Node) :
    n.calculate_param_size.url = n.url := by
  simp [Node.calculate_param_size]

@[simp] theorem Node.method_calculate (n : Node) :
    n.calculate_param_size.method = n.method := by
  simp [Node.calculate_param_size]

@[simp] theorem Node.parent_calculate (n : Node) :
    n.calculate_param_size.parent = n.parent := by
  simp [Node.calculate_param_size]

theorem Mutator.all_param_mutate_eq (f n : Node) (l : List Node) :
    Mutator.all_param_mutate f n l = Mutator.cross_over f l n := rfl

/-- Unfolding lemma: `mutate` unfolded to its three branches followed by the size
recomputation. -/
theorem Mutator.mutate_eq (from_node : Node) (node_list : List Node) (o : MutOracle) :
    Mutator.mutate from_node node_list o
      = (if from_node.size = 0 then
          Mutator.cross_over from_node node_list
            (Node.new from_node.url from_node.method from_node)
        else if o.coin % 100 < 80 then
          Mutator.per_param_mutate from_node
            (Node.new from_node.url from_node.method from_node) o.strat
        else
          Mutator.all_param_mutate from_node
            (Node.new from_node.url from_node.method from_node)
            node_list).calculate_param_size := rfl

/-- C5: `mutate` builds a new node carrying the source's url and method
and the source as parent; with zero source parameters it crosses over
directly; otherwise the 80-weight side of the coin takes the
per-parameter path and the 20-weight side takes the whole-node path,
whose only registered strategy is `cross_over`; and the returned node's
size is recomputed from its final params. -/
theorem c5_mutate (from_node : Node) (node_list : List Node) (o : MutOracle) :
    (Mutator.mutate from_node node_list o).url = from_node.url
    ∧ (Mutator.mutate from_node node_list o).method = from_node.method
    ∧ (Mutator.mutate from_node node_list o).parent = some from_node
    ∧ (from_node.size = 0 →
        Mutator.mutate from_node node_list o
          = (Mutator.cross_over from_node node_list
              (Node.new from_node.url from_node.method from_node)).calculate_param_size)
    ∧ (from_node.size ≠ 0 → o.coin % 100 < 80 →
        Mutator.mutate from_node node_list o
          = (Mutator.per_param_mutate from_node
              (Node.new from_node.url from_node.method from_node)
              o.strat).calculate_param_size)
    ∧ (from_node.size ≠ 0 → ¬ o.coin % 100 < 80 →
        Mutator.mutate from_node node_list o
          = (Mutator.cross_over from_node node_list
              (Node.new from_node.url from_node.method from_node)).calculate_param_size)
    ∧ (Mutator.mutate from_node node_list o).size
        = ((Mutator.mutate from_node node_list o).params.get).length
          + ((Mutator.mutate from_node node_list o).params.post).length := by
  refine ⟨?_, ?_, ?_, ?_, ?_, ?_, ?_⟩
  · rw [Mutator.mutate_eq]
    split
    · simp [Mutator.cross_over_url]
    · split
      · simp [Mutator.per_param_mutate]
      · simp [Mutator.all_param_mutate_eq, Mutator.cross_over_url]
  · rw [Mutator.mutate_eq]
    split
    · simp [Mutator.cross_over_method]
    · split
      · simp [Mutator.per_param_mutate]
      · simp [Mutator.all_param_mutate_eq, Mutator.cross_over_method]
  · rw [Mutator.mutate_eq]
    split
    · simp [Mutator.cross_over_parent]
    · split
      · simp [Mutator.per_param_mutate]
      · simp [Mutator.all_param_mutate_eq, Mutator.cross_over_parent]
  · intro h0
    rw [Mutator.mutate_eq, if_pos h0]
  · intro h0 hc
    rw [Mutator.mutate_eq, if_neg h0, if_pos hc]
  · intro h0 hc
    rw [Mutator.mutate_eq, if_neg h0, if_neg hc, Mutator.all_param_mutate_eq]
  · rw [Mutator.mutate_eq]
    exact Node.calculate_param_size_spec _

/-- C5 witness: the per-parameter branch taken at a concrete one-parameter
node with a concrete oracle. -/
theorem c5_witness :
    (Node.mk "/a" HTTPMethod.GET ⟨[("id", ["1"])], []⟩ 1 none).size ≠ 0
    ∧ ((⟨0, fun _ _ k v => (k, v)⟩ : MutOracle).coin % 100 < 80)
    ∧ Mutator.mutate (Node.mk "/a" HTTPMethod.GET ⟨[("id", ["1"])], []⟩ 1 none) []
        (⟨0, fun _ _ k v => (k, v)⟩ : MutOracle)
      = (Mutator.per_param_mutate
          (Node.mk "/a" HTTPMethod.GET ⟨[("id", ["1"])], []⟩ 1 none)
          (Node.new "/a" HTTPMethod.GET
            (Node.mk "/a" HTTPMethod.GET ⟨[("id", ["1"])], []⟩ 1 none))
          (⟨0, fun _ _ k v => (k, v)⟩ : MutOracle).strat).calculate_param_size :=
  ⟨by decide, by decide,
    (c5_mutate (Node.mk "/a" HTTPMethod.GET ⟨[("id", ["1"])], []⟩ 1 none) []
      (⟨0, fun _ _ k v => (k, v)⟩ : MutOracle)).2.2.2.2.1
      (by decide) (by decide)⟩

/-!
C6: the three token-insertion strategies.
-/

theorem Mutator.add_syntax_token_eq_some (m : Mutator) (rK rI coin : Nat)
    (param : String) (val : List String) (tok : String)
    (h : m.syntax_tokens.payload rK rI = some tok) :
    Mutator.add_syntax_token m rK rI coin param val
      = if 1 + coin % 2 = HEADS then some (param, val.map fun x => tok ++ x)
        else some (param, val.map fun x => x ++ tok) := by
  unfold Mutator.add_syntax_token
  rw [h]

theorem Mutator.add_xss_payload_eq_some (m : Mutator) (rK rI coin : Nat)
    (param : String) (val : List String) (tok : String)
    (h : m.xss_payloads.payload rK rI = some tok) :
    Mutator.add_xss_payload m rK rI coin param val
      = if 1 + coin % 2 = HEADS then some (param, val.map fun x => tok ++ x)
        else some (param, val.map fun x => x ++ tok) := by
  unfold Mutator.add_xss_payload
  rw [h]

theorem getD_mem_mutationAlphabet (i : Nat) :
    mutationAlphabet.getD i 'a' ∈ mutationAlphabet := by
  rw [List.getD_eq_getD_get?]
  cases h : mutationAlphabet.get? i with
  | none => exact (by decide : 'a' ∈ mutationAlphabet)
  | some c => exact List.get?_mem h

/-- C6: each of add-random-text, add-syntax-token and add-xss-payload
keeps the name unchanged and maps every value to token-plus-original or
original-plus-token, with one consistently chosen placement and a single
token shared across the whole list for the call; for add-random-text the
token's length lies in 1..5 and its characters come from the
lowercase-punctuation-digits alphabet. -/
theorem c6_insertion_strategies (m : Mutator) (o : TextOracle)
    (sK sI sCoin xK xI xCoin : Nat) (param : String) (val : List String)
    (tokS tokX : String)
    (hval : val ≠ [])
    (hs : m.syntax_tokens.payload sK sI = some tokS)
    (hx : m.xss_payloads.payload xK xI = some tokX) :
    ((Mutator.add_random_text o param val).1 = param
      ∧ ∃ tok : String, 1 ≤ tok.length ∧ tok.length ≤ 5
          ∧ (∀ c ∈ tok.data, c ∈ mutationAlphabet)
          ∧ (Mutator.add_random_text o param val).2.length = val.length
          ∧ ((Mutator.add_random_text o param val).2 = val.map (fun x => tok ++ x)
             ∨ (Mutator.add_random_text o param val).2 = val.map (fun x => x ++ tok)))
    ∧ (∃ out : List String,
        Mutator.add_syntax_token m sK sI sCoin param val = some (param, out)
        ∧ out.length = val.length
        ∧ (out = val.map (fun x => tokS ++ x) ∨ out = val.map (fun x => x ++ tokS)))
    ∧ (∃ out : List String,
        Mutator.add_xss_payload m xK xI xCoin param val = some (param, out)
        ∧ out.length = val.length
        ∧ (out = val.map (fun x => tokX ++ x) ∨ out = val.map (fun x => x ++ tokX))) := by
  refine ⟨⟨?_, ?_⟩, ?_, ?_⟩
  · unfold Mutator.add_random_text
    split <;> rfl
  · refine ⟨Mutator.random_string o.charPick (1 + o.lenPick % 5), ?_, ?_, ?_, ?_, ?_⟩
    · simp [Mutator.random_string, String.length]
    · have h5 : o.lenPick % 5 < 5 := Nat.mod_lt _ (by norm_num)
      simp [Mutator.random_string, String.length]
      omega
    · intro c hc
      simp only [Mutator.random_string, List.mem_map, List.mem_range] at hc
      obtain ⟨i, _, rfl⟩ := hc
      exact getD_mem_mutationAlphabet _
    · unfold Mutator.add_random_text
      split <;> simp
    · unfold Mutator.add_random_text
      split
      · exact Or.inl rfl
      · exact Or.inr rfl
  · rw [Mutator.add_syntax_token_eq_some m sK sI sCoin param val tokS hs]
    by_cases hc : 1 + sCoin % 2 = HEADS
    · rw [if_pos hc]
      exact ⟨val.map (fun x => tokS ++ x), rfl, by simp, Or.inl rfl⟩
    · rw [if_neg hc]
      exact ⟨val.map (fun x => x ++ tokS), rfl, by simp, Or.inr rfl⟩
  · rw [Mutator.add_xss_payload_eq_some m xK xI xCoin param val tokX hx]
    by_cases hc : 1 + xCoin % 2 = HEADS
    · rw [if_pos hc]
      exact ⟨val.map (fun x => tokX ++ x), rfl, by simp, Or.inl rfl⟩
    · rw [if_neg hc]
      exact ⟨val.map (fun x => x ++ tokX), rfl, by simp, Or.inr rfl⟩

/-- C6 witness: the three strategies applied to a concrete input with a
concrete single-category mutator configuration. -/
theorem c6_witness :
    ((["v1", "v2"] : List String) ≠ [])
    ∧ ((⟨⟨[⟨100, ["X"]⟩]⟩, ⟨[⟨100, ["S"]⟩]⟩⟩ : Mutator).syntax_tokens.payload 0 0
        = some "S")
    ∧ ((⟨⟨[⟨100, ["X"]⟩]⟩, ⟨[⟨100, ["S"]⟩]⟩⟩ : Mutator).xss_payloads.payload 0 0
        = some "X")
    ∧ (Mutator.add_random_text (⟨0, fun _ => 0, 0⟩ : TextOracle) "p" ["v1", "v2"]).1
        = "p"
    ∧ (∃ out : List String,
        Mutator.add_syntax_token (⟨⟨[⟨100, ["X"]⟩]⟩, ⟨[⟨100, ["S"]⟩]⟩⟩ : Mutator)
            0 0 0 "p" ["v1", "v2"] = some ("p", out)
        ∧ out.length = (["v1", "v2"] : List String).length
        ∧ (out = (["v1", "v2"] : List String).map (fun x => "S" ++ x)
           ∨ out = (["v1", "v2"] : List String).map (fun x => x ++ "S"))) := by
  refine ⟨by decide, by decide, by decide, ?_, ?_⟩
  · exact (c6_insertion_strategies (⟨⟨[⟨100, ["X"]⟩]⟩, ⟨[⟨100, ["S"]⟩]⟩⟩ : Mutator)
      (⟨0, fun _ => 0, 0⟩ : TextOracle) 0 0 0 0 0 0 "p" ["v1", "v2"] "S" "X"
      (by decide) (by decide) (by decide)).1.1
  · exact (c6_insertion_strategies (⟨⟨[⟨100, ["X"]⟩]⟩, ⟨[⟨100, ["S"]⟩]⟩⟩ : Mutator)
      (⟨0, fun _ => 0, 0⟩ : TextOracle) 0 0 0 0 0 0 "p" ["v1", "v2"] "S" "X"
      (by decide) (by decide) (by decide)).2.1

/-!
C9: the frame property of mutate over the store.
-/

theorem readSt_append_lt (st : Store) (v : ParamsMap) (r : Nat) (h : r < st.length) :
    readSt (st ++ [v]) r = readSt st r := by
  unfold readSt
  rw [List.getD_eq_getD_get?, List.getD_eq_getD_get?, List.get?_append h]

theorem readSt_writeSt_ne (st : Store) (r2 r : Nat) (v : ParamsMap) (h : r ≠ r2) :
    readSt (writeSt st r2 v) r = readSt st r := by
  unfold readSt writeSt
  rw [List.getD_eq_getD_get?, List.getD_eq_getD_get?, List.get?_set_ne _ _ h.symm]

theorem process_entries_h_preserves (newRef : Nat) (pt : HTTPMethod)
    (strat : Nat → String → List String → String × List String) (r : Nat)
    (hr : r ≠ newRef) :
    ∀ (entries : List (String × List String)) (i : Nat) (st : Store),
      readSt (Mutator.process_entries_h newRef pt strat i entries st) r
        = readSt st r := by
  intro entries
  induction entries with
  | nil => intro i st; rfl
  | cons e rest ih =>
    intro i st
    obtain ⟨key, value⟩ := e
    simp only [Mutator.process_entries_h]
    rw [ih, readSt_writeSt_ne _ _ _ _ hr]
    by_cases hren : (strat i key value).1 ≠ key
    · rw [if_pos hren, readSt_writeSt_ne _ _ _ _ hr]
    · rw [if_neg hren]

theorem per_param_group_h_preserves (st : Store) (fromRef newRef : Nat)
    (pt : HTTPMethod) (strat : Nat → String → List String → String × List String)
    (r : Nat) (hr : r ≠ newRef) :
    readSt (Mutator.per_param_group_h st fromRef newRef pt strat) r
      = readSt st r := by
  simp only [Mutator.per_param_group_h]
  rw [process_entries_h_preserves _ _ _ _ hr, readSt_writeSt_ne _ _ _ _ hr]

theorem per_param_mutate_h_preserves (st : Store) (f n : NodeH)
    (strat : HTTPMethod → Nat → String → List String → String × List String)
    (r : Nat) (hr : r ≠ n.paramsRef) :
    readSt (Mutator.per_param_mutate_h st f n strat) r = readSt st r := by
  simp only [Mutator.per_param_mutate_h]
  rw [per_param_group_h_preserves _ _ _ _ _ _ hr,
    per_param_group_h_preserves _ _ _ _ _ _ hr]

theorem cross_step_h_preserves (st : Store) (l : List NodeH) (n : NodeH)
    (pt : HTTPMethod) (r : Nat) (hr : r ≠ n.paramsRef) :
    readSt (Mutator.cross_step_h st l n pt) r = readSt st r := by
  unfold Mutator.cross_step_h
  split
  · rfl
  · split
    · rfl
    · exact readSt_writeSt_ne _ _ _ _ hr

theorem cross_over_h_preserves (st : Store) (f : NodeH) (l : List NodeH)
    (n : NodeH) (r : Nat) (hr : r < st.length) :
    readSt (Mutator.cross_over_h st f l n).1 r = readSt st r := by
  simp only [Mutator.cross_over_h]
  have hne : r ≠ st.length := Nat.ne_of_lt hr
  rw [cross_step_h_preserves _ _ _ _ _ hne, cross_step_h_preserves _ _ _ _ _ hne,
    readSt_append_lt _ _ _ hr]

theorem mutate_h_preserves (st : Store) (f : NodeH) (l : List NodeH)
    (o : MutOracle) (r : Nat) (hr : r < st.length) :
    readSt (Mutator.mutate_h st f l o).1 r = readSt st r := by
  simp only [Mutator.mutate_h]
  have hr1 : r < (st ++ [(⟨[], []⟩ : ParamsMap)]).length := by
    simp
    omega
  have hne : r ≠ st.length := Nat.ne_of_lt hr
  split
  · rw [cross_over_h_preserves _ _ _ _ _ hr1, readSt_append_lt _ _ _ hr]
  · split
    · rw [per_param_mutate_h_preserves _ _ _ _ _ hne, readSt_append_lt _ _ _ hr]
    · simp only [Mutator.all_param_mutate_h]
      rw [cross_over_h_preserves _ _ _ _ _ hr1, readSt_append_lt _ _ _ hr]

/-- C9: in the reference-semantics model, `mutate` never mutates the
source node's params structure or any corpus member's params structure
in place: every write it performs targets params structures freshly
allocated during the call, so after `mutate` returns, the source's
params and every corpus member's params read back exactly as before the
call. -/
theorem c9_mutate_no_in_place_mutation (st : Store) (from_node : NodeH)
    (node_list : List NodeH) (o : MutOracle)
    (hf : from_node.paramsRef < st.length)
    (hc : ∀ c ∈ node_list, c.paramsRef < st.length) :
    readSt (Mutator.mutate_h st from_node node_list o).1 from_node.paramsRef
        = readSt st from_node.paramsRef
    ∧ ∀ c ∈ node_list,
        readSt (Mutator.mutate_h st from_node node_list o).1 c.paramsRef
          = readSt st c.paramsRef :=
  ⟨mutate_h_preserves st from_node node_list o _ hf,
   fun c hcm => mutate_h_preserves st from_node node_list o _ (hc c hcm)⟩

/-- C9 witness: `mutate` run on a concrete one-slot store with the source
node referencing slot 0, leaving slot 0 unchanged. -/
theorem c9_witness :
    ((⟨"/a", HTTPMethod.GET, 0, 1⟩ : NodeH).paramsRef
        < ([⟨[("a", ["1"])], []⟩] : Store).length)
    ∧ readSt (Mutator.mutate_h ([⟨[("a", ["1"])], []⟩] : Store)
          (⟨"/a", HTTPMethod.GET, 0, 1⟩ : NodeH) []
          (⟨0, fun _ _ k v => (k, v)⟩ : MutOracle)).1 0
        = readSt ([⟨[("a", ["1"])], []⟩] : Store) 0 :=
  ⟨by decide,
    (c9_mutate_no_in_place_mutation ([⟨[("a", ["1"])], []⟩] : Store)
      (⟨"/a", HTTPMethod.GET, 0, 1⟩ : NodeH) []
      (⟨0, fun _ _ k v => (k, v)⟩ : MutOracle) (by decide)
      (by intro c hcm; cases hcm)).1⟩
